import Mathlib

/-!
Shallow embedding of the calorie-tracker application (`src/app.py`).

The persistent store is modelled as in-memory lists: the `foods` table is a
`List FoodDef`, the `logs` table a `List LogEntry`.  Numeric columns (SQLite
`REAL`) are modelled as exact rationals `ℚ`; calendar dates (ISO-8601 `TEXT`
columns, whose lexicographic comparison coincides with date order) are
modelled as day numbers `ℤ`; user ids as `ℕ`; food names and meal labels as
`String`.  Python's `str.lower` is modelled as a character-wise lower-casing
(`strLower`), and SQLite / pandas string ordering as character-wise
lexicographic comparison (`nameLe`).
-/

/-- A row of the `foods` table: per-account food definition with per-100g
nutrient densities. -/
structure FoodDef where
  userId : ℕ
  name : String
  kcal100 : ℚ
  protein100 : ℚ
  carbs100 : ℚ
  fat100 : ℚ
  deriving DecidableEq, Repr

/-- A row of the `logs` table: one consumption event with snapshotted
nutrient values. -/
structure LogEntry where
  id : ℕ
  userId : ℕ
  entryDate : ℤ
  time : String
  food : String
  weightG : ℚ
  kcal : ℚ
  protein : ℚ
  carbs : ℚ
  fat : ℚ
  meal : String
  deriving DecidableEq, Repr

/-- Sums of the four nutrient channels. -/
structure Totals where
  kcal : ℚ
  protein : ℚ
  carbs : ℚ
  fat : ℚ
  deriving DecidableEq, Repr

def zeroTotals : Totals := ⟨0, 0, 0, 0⟩

/-- Sum of the four nutrient channels over a list of log rows
(`SUM(kcal), SUM(protein), SUM(carbs), SUM(fat)`). -/
def sumTotals (l : List LogEntry) : Totals :=
  l.foldr (fun e t => ⟨e.kcal + t.kcal, e.protein + t.protein,
                       e.carbs + t.carbs, e.fat + t.fat⟩) zeroTotals

/-- Python `str.lower`: lower-case every character. -/
def strLower (s : String) : String := ⟨s.data.map Char.toLower⟩

/-- Character-wise lexicographic string comparison, as used by
`ORDER BY name` (SQLite binary collation) and pandas group-key sorting on
the lower-case ASCII names occurring in this application. -/
def charListLe : List Char → List Char → Bool
  | [], _ => true
  | _ :: _, [] => false
  | a :: as, b :: bs => if a < b then true else if b < a then false else charListLe as bs

def nameLe (a b : String) : Bool := charListLe a.data b.data

/-- `add_food` (src/app.py:146-156): `INSERT OR REPLACE INTO foods`, keyed by
the `UNIQUE(user_id, name)` constraint, with the name lower-cased.  SQLite's
`INSERT OR REPLACE` removes every conflicting row and inserts the new one. -/
def add_food (foods : List FoodDef) (uid : ℕ) (name : String)
    (kcal protein carbs fat : ℚ) : List FoodDef :=
  (foods.filter (fun f => ¬(f.userId = uid ∧ f.name = strLower name))) ++
    [⟨uid, strLower name, kcal, protein, carbs, fat⟩]

/-- `get_foods` (src/app.py:159-164): the account's food rows,
`ORDER BY name` ascending. -/
def get_foods (foods : List FoodDef) (uid : ℕ) : List FoodDef :=
  List.insertionSort (fun a b => nameLe a.name b.name = true)
    (foods.filter (fun f => f.userId = uid))

/-- Fresh `AUTOINCREMENT` row id for the `logs` table. -/
def freshId (logs : List LogEntry) : ℕ :=
  (logs.map (fun e => e.id)).foldr max 0 + 1

/-- `log_food` (src/app.py:167-173): unconditional `INSERT INTO logs`; the
food name is lower-cased, nothing is validated. -/
def log_food (logs : List LogEntry) (uid : ℕ) (entryDate : ℤ) (timeStr : String)
    (food : String) (weightG kcal protein carbs fat : ℚ) (meal : String) :
    List LogEntry :=
  logs ++ [⟨freshId logs, uid, entryDate, timeStr, strLower food, weightG,
            kcal, protein, carbs, fat, meal⟩]

/-- `get_logs_for_date` (src/app.py:176-181): the account's rows for one
date, in id (= insertion) order. -/
def get_logs_for_date (logs : List LogEntry) (uid : ℕ) (entryDate : ℤ) :
    List LogEntry :=
  logs.filter (fun e => e.userId = uid ∧ e.entryDate = entryDate)

/-- `delete_log` (src/app.py:184-189):
`DELETE FROM logs WHERE user_id = ? AND id = ?`. -/
def delete_log (logs : List LogEntry) (uid : ℕ) (logId : ℕ) : List LogEntry :=
  logs.filter (fun e => ¬(e.userId = uid ∧ e.id = logId))

/-- `calc_from_food_row` (src/app.py:226-231): scale each per-100g density by
`weight_g / 100`. -/
def calc_from_food_row (row : FoodDef) (weightG : ℚ) : ℚ × ℚ × ℚ × ℚ :=
  (row.kcal100 * weightG / 100, row.protein100 * weightG / 100,
   row.carbs100 * weightG / 100, row.fat100 * weightG / 100)

/-- The sample food list of `seed_example_foods_for_user`
(src/app.py:238-249), in source order. -/
def sampleFoods : List (String × ℚ × ℚ × ℚ × ℚ) :=
  [("rice", 130, 2.7, 28.0, 0.3),
   ("roti", 120, 3.6, 20.0, 1.0),
   ("chicken", 165, 31.0, 0.0, 3.6),
   ("egg", 155, 13.0, 1.1, 11.0),
   ("milk", 60, 3.2, 5.0, 3.3),
   ("apple", 52, 0.3, 14.0, 0.2),
   ("banana", 89, 1.1, 23.0, 0.3),
   ("paneer", 265, 18.0, 1.2, 20.8),
   ("dal", 116, 9.0, 20.0, 1.0),
   ("oats", 389, 17.0, 66.0, 7.0)]

/-- `seed_example_foods_for_user` (src/app.py:237-251): `add_food` each
sample item in turn. -/
def seed_example_foods_for_user (foods : List FoodDef) (uid : ℕ) :
    List FoodDef :=
  sampleFoods.foldl
    (fun acc it => add_food acc uid it.1 it.2.1 it.2.2.1 it.2.2.2.1 it.2.2.2.2)
    foods

/-- The module-level seeding trigger (src/app.py:333-336): seed exactly when
`get_foods` returns an empty frame. -/
def ensure_seeded (foods : List FoodDef) (uid : ℕ) : List FoodDef :=
  if (get_foods foods uid).isEmpty then seed_example_foods_for_user foods uid
  else foods

/-- The food rows inserted by the seeding routine, in insertion order. -/
def seededFoods (uid : ℕ) : List FoodDef :=
  sampleFoods.map (fun it => ⟨uid, strLower it.1, it.2.1, it.2.2.1,
                              it.2.2.2.1, it.2.2.2.2⟩)

/-- The seeded catalog as `get_foods` lists it: the ten sample foods in
alphabetical name order. -/
def sortedSeedCatalog (uid : ℕ) : List FoodDef :=
  [⟨uid, "apple", 52, 0.3, 14.0, 0.2⟩,
   ⟨uid, "banana", 89, 1.1, 23.0, 0.3⟩,
   ⟨uid, "chicken", 165, 31.0, 0.0, 3.6⟩,
   ⟨uid, "dal", 116, 9.0, 20.0, 1.0⟩,
   ⟨uid, "egg", 155, 13.0, 1.1, 11.0⟩,
   ⟨uid, "milk", 60, 3.2, 5.0, 3.3⟩,
   ⟨uid, "oats", 389, 17.0, 66.0, 7.0⟩,
   ⟨uid, "paneer", 265, 18.0, 1.2, 20.8⟩,
   ⟨uid, "rice", 130, 2.7, 28.0, 0.3⟩,
   ⟨uid, "roti", 120, 3.6, 20.0, 1.0⟩]

/-- `remaining` (src/app.py:422): `daily_goal - total_kcal`, unclamped. -/
def remaining (dailyGoal totalKcal : ℚ) : ℚ := dailyGoal - totalKcal

/-- The progress-bar fraction (src/app.py:424):
`min(max(total_kcal / max(daily_goal, 1), 0.0), 1.0)`. -/
def progressFraction (dailyGoal totalKcal : ℚ) : ℚ :=
  min (max (totalKcal / max dailyGoal 1) 0) 1

/-- Sort and deduplicate the dates occurring in a query result, modelling
`GROUP BY entry_date ORDER BY entry_date`. -/
def sortDedupInt (l : List ℤ) : List ℤ :=
  List.insertionSort (fun a b => a ≤ b) l.dedup

/-- Sort and deduplicate pandas group keys (`groupby('meal')`). -/
def sortDedupStr (l : List String) : List String :=
  List.insertionSort (fun a b => nameLe a b = true) l.dedup

/-- The grouped query of `get_history` (src/app.py:262-265): one row per
distinct date, in ascending date order, summing the four channels. -/
def groupByDate (l : List LogEntry) : List (ℤ × Totals) :=
  (sortDedupInt (l.map (fun e => e.entryDate))).map
    (fun d => (d, sumTotals (l.filter (fun e => e.entryDate = d))))

/-- Look a date up in a grouped query result (the pandas reindex of
src/app.py:272-274 keeps a window date's queried row if present). -/
def lookupDate (d : ℤ) : List (ℤ × Totals) → Option Totals
  | [] => none
  | (k, t) :: rest => if k = d then some t else lookupDate d rest

/-- `pd.date_range(start=start, end=today)` (src/app.py:269, 273): the dates
of the requested window, ascending. -/
def historyWindow (today : ℤ) (days : ℕ) : List ℤ :=
  (List.range days).map (fun i : ℕ => today - ((days : ℤ) - 1) + i)

/-- `get_history` (src/app.py:258-275): grouped sums over
`entry_date >= start`, then either an all-zero frame (empty query) or a
reindex of the query onto the full window with `fill_value=0`. -/
def get_history (logs : List LogEntry) (uid : ℕ) (today : ℤ) (days : ℕ) :
    List (ℤ × Totals) :=
  if (groupByDate (logs.filter (fun e => e.userId = uid ∧
        today - ((days : ℤ) - 1) ≤ e.entryDate))).isEmpty then
    (historyWindow today days).map (fun d => (d, zeroTotals))
  else
    (historyWindow today days).map
      (fun d => (d, (lookupDate d (groupByDate
          (logs.filter (fun e => e.userId = uid ∧
            today - ((days : ℤ) - 1) ≤ e.entryDate)))).getD zeroTotals))

/-- Per-date per-account sum of the four channels (the value a dense history
row must carry). -/
def dailySum (logs : List LogEntry) (uid : ℕ) (d : ℤ) : Totals :=
  sumTotals (logs.filter (fun e => e.userId = uid ∧ e.entryDate = d))

/-- `meal_summary` (src/app.py:429-431):
`logs_df.groupby('meal').agg(sum)` — one row per meal label that occurs,
keys sorted, summing each channel. -/
def meal_summary (l : List LogEntry) : List (String × Totals) :=
  (sortDedupStr (l.map (fun e => e.meal))).map
    (fun m => (m, sumTotals (l.filter (fun e => e.meal = m))))

/-- The in-memory application state: the two per-account tables the logging
page touches. -/
structure AppState where
  foods : List FoodDef
  logs : List LogEntry
  deriving DecidableEq, Repr

/-- `add_food` lifted to the whole store: it writes only the `foods` table. -/
def add_food_state (s : AppState) (uid : ℕ) (name : String)
    (kcal protein carbs fat : ℚ) : AppState :=
  { s with foods := add_food s.foods uid name kcal protein carbs fat }

/-- The module-level add-entry handler (src/app.py:367-373): look the chosen
name up in the `get_foods` frame (`.iloc[0]` raises when no row matches,
modelled as `none`), scale via `calc_from_food_row`, and `log_food` the
result.  The weight is never inspected. -/
def add_entry (s : AppState) (uid : ℕ) (today : ℤ) (timeStr : String)
    (foodChoice : String) (weight : ℚ) (meal : String) : Option AppState :=
  match (get_foods s.foods uid).find? (fun f => f.name = foodChoice) with
  | none => none
  | some row =>
    let r := calc_from_food_row row weight
    some { s with logs := log_food s.logs uid today timeStr foodChoice weight
                            r.1 r.2.1 r.2.2.1 r.2.2.2 meal }

/-- C3: the nutrient scaling computation returns exactly
`(K·W/100, P·W/100, C·W/100, F·W/100)` for non-negative densities and
positive weight, with no rounding and no clamping, and on the seeded "egg"
definition (155, 13.0, 1.1, 11.0) at weight 50 it yields kcal 77.5,
protein 6.5, carbs 0.55, fat 5.5. -/
theorem calc_scaling_exact (u : ℕ) (n : String) (K P C F W : ℚ)
    (hK : 0 ≤ K) (hP : 0 ≤ P) (hC : 0 ≤ C) (hF : 0 ≤ F) (hW : 0 < W) :
    calc_from_food_row ⟨u, n, K, P, C, F⟩ W
      = (K * W / 100, P * W / 100, C * W / 100, F * W / 100)
    ∧ calc_from_food_row ⟨u, "egg", 155, 13.0, 1.1, 11.0⟩ 50
      = ((77.5 : ℚ), (6.5 : ℚ), (0.55 : ℚ), (5.5 : ℚ)) := by
  refine ⟨rfl, ?_⟩
  simp only [calc_from_food_row, Prod.mk.injEq]
  norm_num

/-- Witness for `calc_scaling_exact` at the egg densities and weight 50. -/
theorem calc_scaling_exact_witness :
    ((0 : ℚ) ≤ 155 ∧ (0 : ℚ) ≤ 13.0 ∧ (0 : ℚ) ≤ 1.1 ∧ (0 : ℚ) ≤ 11.0
      ∧ (0 : ℚ) < 50)
    ∧ calc_from_food_row ⟨1, "egg", 155, 13.0, 1.1, 11.0⟩ 50
        = ((77.5 : ℚ), (6.5 : ℚ), (0.55 : ℚ), (5.5 : ℚ)) :=
  ⟨⟨by norm_num, by norm_num, by norm_num, by norm_num, by norm_num⟩,
   (calc_scaling_exact 1 "egg" 155 13.0 1.1 11.0 50 (by norm_num)
     (by norm_num) (by norm_num) (by norm_num) (by norm_num)).2⟩

/-- C4: `remaining` is the unclamped difference `dailyGoal - totalKcal`
(negative whenever `totalKcal > dailyGoal`), and the progress fraction is
`clamp(totalKcal / max(dailyGoal, 1), 0, 1)`, always in `[0, 1]`, with a
strictly positive denominator even when the goal is 0. -/
theorem goal_progress_bounds (dailyGoal totalKcal : ℚ) (h : 0 ≤ totalKcal) :
    remaining dailyGoal totalKcal = dailyGoal - totalKcal
    ∧ progressFraction dailyGoal totalKcal
        = min (max (totalKcal / max dailyGoal 1) 0) 1
    ∧ 0 < max dailyGoal 1
    ∧ 0 ≤ progressFraction dailyGoal totalKcal
    ∧ progressFraction dailyGoal totalKcal ≤ 1
    ∧ (dailyGoal < totalKcal → remaining dailyGoal totalKcal < 0) := by
  refine ⟨rfl, rfl, ?_, ?_, ?_, ?_⟩
  · exact lt_of_lt_of_le one_pos (le_max_right _ _)
  · exact le_min (le_max_right _ _) zero_le_one
  · exact min_le_right _ _
  · intro hlt
    simpa [remaining] using sub_neg.mpr hlt

/-- Witness for `goal_progress_bounds` at goal 0 and intake 500. -/
theorem goal_progress_bounds_witness :
    (0 : ℚ) ≤ 500
    ∧ 0 ≤ progressFraction 0 500 ∧ progressFraction 0 500 ≤ 1
    ∧ remaining 0 500 < 0 :=
  ⟨by norm_num,
   (goal_progress_bounds 0 500 (by norm_num)).2.2.2.1,
   (goal_progress_bounds 0 500 (by norm_num)).2.2.2.2.1,
   (goal_progress_bounds 0 500 (by norm_num)).2.2.2.2.2 (by norm_num)⟩

/-- After `add_food`, the account's catalog holds exactly one row under the
written (lower-cased) name: the row just written. -/
theorem filter_key_add_food (foods : List FoodDef) (u : ℕ) (n : String)
    (k p c f : ℚ) :
    (add_food foods u n k p c f).filter
        (fun fd => fd.userId = u ∧ fd.name = strLower n)
      = [⟨u, strLower n, k, p, c, f⟩] := by
  unfold add_food
  rw [List.filter_append]
  have h1 : (foods.filter
        (fun fd => ¬(fd.userId = u ∧ fd.name = strLower n))).filter
      (fun fd => fd.userId = u ∧ fd.name = strLower n) = [] := by
    rw [List.filter_filter]
    apply List.filter_eq_nil_iff.mpr
    intro a _
    by_cases hk : a.userId = u ∧ a.name = strLower n <;> simp [hk]
  rw [h1]
  simp

/-- C5: upserting twice under the same (account, case-folded name) leaves
exactly one catalog row for that key, holding the later values; no error is
possible (the operation is total). -/
theorem add_food_last_write_wins (foods : List FoodDef) (u : ℕ)
    (n₁ n₂ : String) (k₁ p₁ c₁ f₁ k₂ p₂ c₂ f₂ : ℚ)
    (h : strLower n₁ = strLower n₂) :
    (add_food (add_food foods u n₁ k₁ p₁ c₁ f₁) u n₂ k₂ p₂ c₂ f₂).filter
        (fun fd => fd.userId = u ∧ fd.name = strLower n₂)
      = [⟨u, strLower n₂, k₂, p₂, c₂, f₂⟩]
    ∧ (add_food (add_food foods u n₁ k₁ p₁ c₁ f₁) u n₂ k₂ p₂ c₂ f₂).filter
        (fun fd => fd.userId = u ∧ fd.name = strLower n₁)
      = [⟨u, strLower n₂, k₂, p₂, c₂, f₂⟩] := by
  constructor
  · exact filter_key_add_food _ u n₂ k₂ p₂ c₂ f₂
  · rw [h]
    exact filter_key_add_food _ u n₂ k₂ p₂ c₂ f₂

/-- Witness for `add_food_last_write_wins`: upsert "Egg" then "egg" for
account 1. -/
theorem add_food_last_write_wins_witness :
    strLower "Egg" = strLower "egg"
    ∧ (add_food (add_food [] 1 "Egg" 1 2 3 4) 1 "egg" 5 6 7 8).filter
        (fun fd => fd.userId = 1 ∧ fd.name = strLower "egg")
      = [⟨1, strLower "egg", 5, 6, 7, 8⟩] :=
  ⟨by decide,
   (add_food_last_write_wins [] 1 "Egg" "egg" 1 2 3 4 5 6 7 8 (by decide)).1⟩

/-- C6: redefining any food touches only the `foods` table: the log rows,
with all their stored fields (including the snapshotted nutrient values),
are exactly the ones present before. -/
theorem add_food_preserves_log_entries (s : AppState) (u : ℕ) (n : String)
    (k p c f : ℚ) :
    (add_food_state s u n k p c f).logs = s.logs
    ∧ ∀ e ∈ s.logs, e ∈ (add_food_state s u n k p c f).logs := by
  refine ⟨rfl, ?_⟩
  intro e he
  exact he

/-- A concrete logged entry used by witnesses: 50g of egg at its snapshotted
values. -/
def demoEntry : LogEntry :=
  ⟨1, 1, 0, "08:00:00", "egg", 50, 77.5, 6.5, 0.55, 5.5, "Breakfast"⟩

/-- Witness for `add_food_preserves_log_entries`: redefining "egg" leaves a
previously logged egg entry untouched. -/
theorem add_food_preserves_log_entries_witness :
    (add_food_state ⟨[], [demoEntry]⟩ 1 "egg" 200 1 1 1).logs = [demoEntry]
    ∧ demoEntry ∈ (add_food_state ⟨[], [demoEntry]⟩ 1 "egg" 200 1 1 1).logs :=
  ⟨(add_food_preserves_log_entries ⟨[], [demoEntry]⟩ 1 "egg" 200 1 1 1).1,
   (add_food_preserves_log_entries ⟨[], [demoEntry]⟩ 1 "egg" 200 1 1 1).2
     demoEntry (List.mem_singleton.mpr rfl)⟩

/-- C7: `delete_log` keeps exactly the rows that are not (this account, this
id); when no row of this account has this id — the id is absent or owned by
another account — the table is returned unchanged, with no error. -/
theorem delete_log_scoped_noop (logs : List LogEntry) (u lid : ℕ) :
    (∀ e, e ∈ delete_log logs u lid ↔
      e ∈ logs ∧ ¬(e.userId = u ∧ e.id = lid))
    ∧ ((∀ e ∈ logs, ¬(e.userId = u ∧ e.id = lid)) →
        delete_log logs u lid = logs) := by
  constructor
  · intro e
    simp only [delete_log, List.mem_filter, decide_eq_true_eq]
  · intro hnone
    apply List.filter_eq_self.mpr
    intro e he
    simp only [decide_eq_true_eq]
    exact hnone e he

/-- Witness for `delete_log_scoped_noop`: deleting id 99 (absent) and
deleting account 2's view of id 1 are both no-ops on a one-entry log. -/
theorem delete_log_scoped_noop_witness :
    delete_log [demoEntry] 1 99 = [demoEntry]
    ∧ delete_log [demoEntry] 2 1 = [demoEntry] :=
  ⟨(delete_log_scoped_noop [demoEntry] 1 99).2 (by
      intro e he
      rw [List.mem_singleton] at he
      subst he
      simp [demoEntry]),
   (delete_log_scoped_noop [demoEntry] 2 1).2 (by
      intro e he
      rw [List.mem_singleton] at he
      subst he
      simp [demoEntry])⟩

/-- Membership in the listed catalog: an account's `get_foods` frame holds
exactly the account's rows. -/
theorem mem_get_foods (foods : List FoodDef) (uid : ℕ) (fd : FoodDef) :
    fd ∈ get_foods foods uid ↔ fd ∈ foods ∧ fd.userId = uid := by
  unfold get_foods
  rw [List.mem_insertionSort, List.mem_filter]
  simp only [decide_eq_true_eq]

/-- A one-food catalog (the seeded "egg" row) for account 1. -/
def demoCatalog : List FoodDef := [⟨1, "egg", 155, 13.0, 1.1, 11.0⟩]

/-- C2 counterexample: logging "egg" at weight −5 (not strictly positive)
does not fail — the handler persists the entry, so no `InvalidWeight`
rejection exists in the code. -/
theorem add_entry_accepts_nonpositive_weight :
    ((-5 : ℚ) ≤ 0)
    ∧ (add_entry ⟨demoCatalog, []⟩ 1 0 "08:00:00" "egg" (-5) "Breakfast").isSome
        = true
    ∧ (add_entry ⟨demoCatalog, []⟩ 1 0 "08:00:00" "egg" (-5) "Breakfast").map
        (fun s => s.logs.length) = some 1 :=
  ⟨by norm_num, rfl, rfl⟩

/-- C2 (amended): the add-entry handler fails exactly when the chosen name
is not in the account's catalog (the frame lookup finds no row); whenever a
row is found it persists one new entry with the scaled nutrient values, for
any weight whatsoever — the weight is never validated. -/
theorem add_entry_fails_iff_unknown_food (s : AppState) (uid : ℕ) (d : ℤ)
    (t foodChoice meal : String) (w : ℚ) :
    (add_entry s uid d t foodChoice w meal = none ↔
      ∀ fd ∈ s.foods, fd.userId = uid → fd.name ≠ foodChoice)
    ∧ (∀ row, (get_foods s.foods uid).find? (fun f => f.name = foodChoice)
          = some row →
        add_entry s uid d t foodChoice w meal =
          some ⟨s.foods, log_food s.logs uid d t foodChoice w
            (row.kcal100 * w / 100) (row.protein100 * w / 100)
            (row.carbs100 * w / 100) (row.fat100 * w / 100) meal⟩) := by
  constructor
  · unfold add_entry
    cases hfind : (get_foods s.foods uid).find? (fun f => f.name = foodChoice)
      with
    | none =>
      simp only [hfind]
      constructor
      · intro _ fd hfd huid
        have hmem : fd ∈ get_foods s.foods uid :=
          (mem_get_foods s.foods uid fd).mpr ⟨hfd, huid⟩
        have := List.find?_eq_none.mp hfind fd hmem
        simpa using this
      · intro _
        trivial
    | some row =>
      simp only [hfind]
      constructor
      · intro hcontra
        exact absurd hcontra (by simp)
      · intro hall
        have hmem := List.find?_mem hfind
        have hname := List.find?_some hfind
        rw [mem_get_foods] at hmem
        exact absurd (by simpa using hname) (hall row hmem.1 hmem.2)
  · intro row hfind
    unfold add_entry
    rw [hfind]
    exact rfl

/-- Witness for `add_entry_fails_iff_unknown_food`: "banana" is unknown to
the demo catalog and is rejected; "egg" is known and is persisted with the
scaled values. -/
theorem add_entry_fails_iff_unknown_food_witness :
    add_entry ⟨demoCatalog, []⟩ 1 0 "08:00:00" "banana" 50 "Lunch" = none
    ∧ add_entry ⟨demoCatalog, []⟩ 1 0 "08:00:00" "egg" 50 "Breakfast"
        = some ⟨demoCatalog, log_food [] 1 0 "08:00:00" "egg" 50
            (155 * 50 / 100) (13.0 * 50 / 100) (1.1 * 50 / 100)
            (11.0 * 50 / 100) "Breakfast"⟩ :=
  ⟨(add_entry_fails_iff_unknown_food ⟨demoCatalog, []⟩ 1 0 "08:00:00" "banana"
      "Lunch" 50).1.mpr (by decide),
   (add_entry_fails_iff_unknown_food ⟨demoCatalog, []⟩ 1 0 "08:00:00" "egg"
      "Breakfast" 50).2 ⟨1, "egg", 155, 13.0, 1.1, 11.0⟩ rfl⟩

/-- Membership in sorted-deduplicated pandas group keys. -/
theorem mem_sortDedupStr (l : List String) (m : String) :
    m ∈ sortDedupStr l ↔ m ∈ l := by
  unfold sortDedupStr
  rw [List.mem_insertionSort, List.mem_dedup]

/-- C9: the per-meal breakdown has one group per meal label that occurs that
day — a label with no entries is absent, not zero-filled — and each group
sums the four channels of its entries. -/
theorem meal_summary_sparse_groups (logs : List LogEntry) :
    (∀ m : String,
      (∃ t, (m, t) ∈ meal_summary logs) ↔ ∃ e ∈ logs, e.meal = m)
    ∧ (∀ m t, (m, t) ∈ meal_summary logs →
        t = sumTotals (logs.filter (fun e => e.meal = m))) := by
  constructor
  · intro m
    constructor
    · rintro ⟨t, ht⟩
      unfold meal_summary at ht
      obtain ⟨k, hk, hkt⟩ := List.mem_map.mp ht
      rw [Prod.mk.injEq] at hkt
      obtain ⟨hkm, -⟩ := hkt
      rw [← hkm]
      have := (mem_sortDedupStr _ k).mp hk
      obtain ⟨e, he, hem⟩ := List.mem_map.mp this
      exact ⟨e, he, hem⟩
    · rintro ⟨e, he, hem⟩
      refine ⟨sumTotals (logs.filter (fun x => x.meal = m)), ?_⟩
      unfold meal_summary
      apply List.mem_map.mpr
      refine ⟨m, ?_, rfl⟩
      exact (mem_sortDedupStr _ m).mpr (List.mem_map.mpr ⟨e, he, hem⟩)
  · intro m t ht
    unfold meal_summary at ht
    obtain ⟨k, -, hkt⟩ := List.mem_map.mp ht
    rw [Prod.mk.injEq] at hkt
    obtain ⟨hkm, hktv⟩ := hkt
    subst hkm
    exact hktv.symm

/-- Two breakfast-only entries (100 kcal and 50 kcal) on one day. -/
def bEntry1 : LogEntry := ⟨1, 1, 0, "08:00", "a", 100, 100, 0, 0, 0, "Breakfast"⟩

def bEntry2 : LogEntry := ⟨2, 1, 0, "08:10", "b", 50, 50, 0, 0, 0, "Breakfast"⟩

def demoBreakfastLogs : List LogEntry := [bEntry1, bEntry2]

/-- Witness for `meal_summary_sparse_groups`: the breakfast-only day has a
"Breakfast" group, no "Lunch" group, and the group sums its entries. -/
theorem meal_summary_sparse_groups_witness :
    (∃ t, ("Breakfast", t) ∈ meal_summary demoBreakfastLogs)
    ∧ ¬(∃ t, ("Lunch", t) ∈ meal_summary demoBreakfastLogs)
    ∧ ∀ t, ("Breakfast", t) ∈ meal_summary demoBreakfastLogs →
        t = sumTotals (demoBreakfastLogs.filter
              (fun e => e.meal = "Breakfast")) :=
  ⟨((meal_summary_sparse_groups demoBreakfastLogs).1 "Breakfast").mpr
      ⟨bEntry1, by simp [demoBreakfastLogs], rfl⟩,
   fun h => absurd (((meal_summary_sparse_groups demoBreakfastLogs).1
      "Lunch").mp h) (by decide),
   fun t ht => (meal_summary_sparse_groups demoBreakfastLogs).2 "Breakfast"
      t ht⟩

/-- Looking up a key in an association list built over distinct-or-not keys
returns the tabulated value exactly when the key occurs. -/
theorem lookupDate_map_keys (f : ℤ → Totals) (keys : List ℤ) (d : ℤ) :
    lookupDate d (keys.map (fun k => (k, f k)))
      = if d ∈ keys then some (f d) else none := by
  induction keys with
  | nil => simp [lookupDate]
  | cons k ks ih =>
    simp only [List.map_cons, lookupDate]
    by_cases hk : k = d
    · subst hk
      simp
    · rw [if_neg hk, ih]
      by_cases hd : d ∈ ks
      · rw [if_pos hd, if_pos (List.mem_cons_of_mem _ hd)]
      · rw [if_neg hd, if_neg (fun hmem => by
          rcases List.mem_cons.mp hmem with h | h
          · exact hk h.symm
          · exact hd h)]

/-- Membership in the sorted deduplicated date keys of a grouped query. -/
theorem mem_sortDedupInt (l : List ℤ) (d : ℤ) :
    d ∈ sortDedupInt l ↔ d ∈ l := by
  unfold sortDedupInt
  rw [List.mem_insertionSort, List.mem_dedup]

/-- The requested window holds exactly the dates from `today − (days − 1)`
to `today`. -/
theorem mem_historyWindow (today : ℤ) (days : ℕ) (d : ℤ) :
    d ∈ historyWindow today days ↔
      today - ((days : ℤ) - 1) ≤ d ∧ d ≤ today := by
  unfold historyWindow
  simp only [List.mem_map, List.mem_range]
  constructor
  · rintro ⟨i, hi, rfl⟩
    omega
  · rintro ⟨h1, h2⟩
    refine ⟨(d - (today - ((days : ℤ) - 1))).toNat, by omega, by omega⟩

/-- Both branches of `get_history` compute the reindex-with-zero-fill of the
grouped query onto the window (the empty-query branch hand-builds the frame
the reindex would build). -/
theorem get_history_reindex_form (logs : List LogEntry) (uid : ℕ)
    (today : ℤ) (days : ℕ) :
    get_history logs uid today days
      = (historyWindow today days).map
          (fun d => (d, (lookupDate d (groupByDate
              (logs.filter (fun e => e.userId = uid ∧
                today - ((days : ℤ) - 1) ≤ e.entryDate)))).getD zeroTotals)) := by
  unfold get_history
  by_cases hq : (groupByDate (logs.filter (fun e => e.userId = uid ∧
      today - ((days : ℤ) - 1) ≤ e.entryDate))).isEmpty
  · rw [if_pos hq]
    rw [List.isEmpty_iff.mp hq]
    rfl
  · rw [if_neg hq]

/-- Restricting a date-range query result to one in-range date is the plain
one-date query. -/
theorem filter_window_date (logs : List LogEntry) (uid : ℕ) (start d : ℤ)
    (hd : start ≤ d) :
    (logs.filter (fun e => e.userId = uid ∧ start ≤ e.entryDate)).filter
        (fun e => e.entryDate = d)
      = logs.filter (fun e => e.userId = uid ∧ e.entryDate = d) := by
  rw [List.filter_filter]
  apply List.filter_congr
  intro e _
  by_cases h1 : e.userId = uid <;> by_cases h2 : e.entryDate = d
  · subst h2
    simp [h1, hd]
  · simp [h1, h2]
  · subst h2
    simp [h1, hd]
  · simp [h1, h2]

/-- `get_history` is the dense window tabulation of the per-date per-account
sums. -/
theorem get_history_eq_dailySum (logs : List LogEntry) (uid : ℕ)
    (today : ℤ) (days : ℕ) :
    get_history logs uid today days
      = (historyWindow today days).map (fun d => (d, dailySum logs uid d)) := by
  rw [get_history_reindex_form]
  apply List.map_congr_left
  intro d hd
  have hd' := (mem_historyWindow today days d).mp hd
  have hval : (lookupDate d (groupByDate
      (logs.filter (fun e => e.userId = uid ∧
        today - ((days : ℤ) - 1) ≤ e.entryDate)))).getD zeroTotals
      = dailySum logs uid d := by
    rw [groupByDate, lookupDate_map_keys]
    by_cases hk : d ∈ sortDedupInt
        ((logs.filter (fun e => e.userId = uid ∧
          today - ((days : ℤ) - 1) ≤ e.entryDate)).map (fun e => e.entryDate))
    · rw [if_pos hk]
      unfold dailySum
      rw [Option.getD_some,
        filter_window_date logs uid (today - ((days : ℤ) - 1)) d hd'.1]
    · rw [if_neg hk, Option.getD_none]
      have hnone : logs.filter
          (fun e => e.userId = uid ∧ e.entryDate = d) = [] := by
        apply List.filter_eq_nil_iff.mpr
        intro e he
        simp only [decide_eq_true_eq]
        rintro ⟨h1, h2⟩
        apply hk
        rw [mem_sortDedupInt]
        apply List.mem_map.mpr
        refine ⟨e, ?_, h2⟩
        rw [List.mem_filter]
        refine ⟨he, ?_⟩
        simp only [decide_eq_true_eq]
        exact ⟨h1, h2 ▸ hd'.1⟩
      unfold dailySum
      rw [hnone]
      rfl
  rw [hval]

/-- C1: for `N ≥ 1` the history series has exactly `N` rows, one per
calendar date of `[today − (N−1), today]`, in strictly ascending date
order, each row carrying the per-date sums of the account's entries; a
date with no entries appears as a zero row, and with no entries at all
every row is zero — never an error. -/
theorem get_history_dense_window (logs : List LogEntry) (uid : ℕ)
    (today : ℤ) (days : ℕ) (h : 1 ≤ days) :
    (get_history logs uid today days).length = days
    ∧ List.Pairwise (fun a b : ℤ × Totals => a.1 < b.1)
        (get_history logs uid today days)
    ∧ (∀ d : ℤ, (today - ((days : ℤ) - 1) ≤ d ∧ d ≤ today) ↔
        ∃ t, (d, t) ∈ get_history logs uid today days)
    ∧ (∀ p ∈ get_history logs uid today days, p.2 = dailySum logs uid p.1)
    ∧ ((∀ e ∈ logs, e.userId ≠ uid) →
        ∀ p ∈ get_history logs uid today days, p.2 = zeroTotals) := by
  have hmap := get_history_eq_dailySum logs uid today days
  refine ⟨?_, ?_, ?_, ?_, ?_⟩
  · rw [hmap]
    simp [historyWindow]
  · rw [hmap]
    unfold historyWindow
    rw [List.pairwise_map, List.pairwise_map]
    exact (List.pairwise_lt_range days).imp (fun {i j} hij => by
      show today - ((days : ℤ) - 1) + ↑i < today - ((days : ℤ) - 1) + ↑j
      omega)
  · intro d
    constructor
    · intro hd
      exact ⟨dailySum logs uid d,
        hmap ▸ List.mem_map.mpr ⟨d, (mem_historyWindow today days d).mpr hd,
          rfl⟩⟩
    · rintro ⟨t, ht⟩
      rw [hmap] at ht
      obtain ⟨d', hd', hdt⟩ := List.mem_map.mp ht
      rw [Prod.mk.injEq] at hdt
      obtain ⟨hd1, -⟩ := hdt
      subst hd1
      exact (mem_historyWindow today days _).mp hd'
  · intro p hp
    rw [hmap] at hp
    obtain ⟨d, hd, hdp⟩ := List.mem_map.mp hp
    subst hdp
    rfl
  · intro hnone p hp
    rw [hmap] at hp
    obtain ⟨d, hd, hdp⟩ := List.mem_map.mp hp
    subst hdp
    show dailySum logs uid d = zeroTotals
    unfold dailySum
    have hfil : logs.filter (fun e => e.userId = uid ∧ e.entryDate = d)
        = [] := by
      apply List.filter_eq_nil_iff.mpr
      intro e he
      simp only [decide_eq_true_eq]
      rintro ⟨h1, -⟩
      exact hnone e he h1
    rw [hfil]
    rfl

/-- Witness for `get_history_dense_window`: a 3-day window over an empty
log for account 1 ending on day 10. -/
theorem get_history_dense_window_witness :
    1 ≤ 3
    ∧ (get_history [] 1 10 3).length = 3
    ∧ ∀ p ∈ get_history ([] : List LogEntry) 1 10 3, p.2 = zeroTotals :=
  ⟨by norm_num,
   (get_history_dense_window [] 1 10 3 (by norm_num)).1,
   (get_history_dense_window [] 1 10 3 (by norm_num)).2.2.2.2
     (fun e he => absurd he (List.not_mem_nil e))⟩

/-- An entry dated day 11, strictly after the witness "today" of day 10. -/
def futureEntry : LogEntry :=
  ⟨1, 1, 11, "09:00", "egg", 100, 155, 13.0, 1.1, 11.0, "Lunch"⟩

/-- C10: the history series ignores entries dated strictly after today —
dropping them changes nothing — and it still spans exactly the `N` window
dates ending today. -/
theorem get_history_ignores_future (logs : List LogEntry) (uid : ℕ)
    (today : ℤ) (days : ℕ) (h : 1 ≤ days) :
    get_history (logs.filter (fun e => e.entryDate ≤ today)) uid today days
      = get_history logs uid today days
    ∧ (get_history logs uid today days).length = days
    ∧ ∀ p ∈ get_history logs uid today days,
        today - ((days : ℤ) - 1) ≤ p.1 ∧ p.1 ≤ today := by
  refine ⟨?_, ?_, ?_⟩
  · rw [get_history_eq_dailySum, get_history_eq_dailySum]
    apply List.map_congr_left
    intro d hd
    have hd' := (mem_historyWindow today days d).mp hd
    have hval : dailySum (logs.filter (fun e => e.entryDate ≤ today)) uid d
        = dailySum logs uid d := by
      unfold dailySum
      congr 1
      rw [List.filter_filter]
      apply List.filter_congr
      intro e _
      by_cases h1 : e.userId = uid <;> by_cases h2 : e.entryDate = d
      · subst h2
        simp [h1, hd'.2]
      · simp [h1, h2]
      · subst h2
        simp [h1, hd'.2]
      · simp [h1, h2]
    rw [hval]
  · rw [get_history_eq_dailySum]
    simp [historyWindow]
  · intro p hp
    rw [get_history_eq_dailySum] at hp
    obtain ⟨d, hd, hdp⟩ := List.mem_map.mp hp
    subst hdp
    exact (mem_historyWindow today days d).mp hd

/-- Witness for `get_history_ignores_future`: one entry dated day 11 with
today = day 10 and a 2-day window; the series is the same without it, and
is the all-zero frame for days 9 and 10. -/
theorem get_history_ignores_future_witness :
    1 ≤ 2
    ∧ get_history ([futureEntry].filter (fun e => e.entryDate ≤ 10)) 1 10 2
        = get_history [futureEntry] 1 10 2
    ∧ (get_history [futureEntry] 1 10 2).length = 2
    ∧ get_history [futureEntry] 1 10 2 = [(9, zeroTotals), (10, zeroTotals)] :=
  ⟨by norm_num,
   (get_history_ignores_future [futureEntry] 1 10 2 (by norm_num)).1,
   (get_history_ignores_future [futureEntry] 1 10 2 (by norm_num)).2.1,
   rfl⟩

/-- `add_food` on a table with no row under the written key is a plain
append. -/
theorem add_food_of_fresh (l : List FoodDef) (uid : ℕ) (n : String)
    (k p c f : ℚ)
    (h : ∀ e ∈ l, ¬(e.userId = uid ∧ e.name = strLower n)) :
    add_food l uid n k p c f = l ++ [⟨uid, strLower n, k, p, c, f⟩] := by
  unfold add_food
  have hfil : l.filter (fun e => ¬(e.userId = uid ∧ e.name = strLower n))
      = l := by
    apply List.filter_eq_self.mpr
    intro e he
    simp only [decide_eq_true_eq]
    exact h e he
  rw [hfil]

/-- Folding `add_food` over items whose lower-cased names are fresh for the
accumulator and mutually distinct appends one row per item, in order. -/
theorem foldl_add_food_append (uid : ℕ) :
    ∀ (items : List (String × ℚ × ℚ × ℚ × ℚ)) (l : List FoodDef),
      (∀ e ∈ l, ∀ it ∈ items, ¬(e.userId = uid ∧ e.name = strLower it.1)) →
      (items.map (fun it => strLower it.1)).Nodup →
      items.foldl (fun acc it => add_food acc uid it.1 it.2.1 it.2.2.1
          it.2.2.2.1 it.2.2.2.2) l
        = l ++ items.map (fun it => ⟨uid, strLower it.1, it.2.1, it.2.2.1,
            it.2.2.2.1, it.2.2.2.2⟩) := by
  intro items
  induction items with
  | nil =>
    intro l _ _
    simp
  | cons it rest ih =>
    intro l hl hnd
    simp only [List.foldl_cons, List.map_cons]
    rw [add_food_of_fresh l uid it.1 _ _ _ _
      (fun e he => hl e he it (List.mem_cons_self _ _))]
    have hfresh : ∀ e ∈ l ++ [(⟨uid, strLower it.1, it.2.1, it.2.2.1,
        it.2.2.2.1, it.2.2.2.2⟩ : FoodDef)], ∀ it' ∈ rest,
        ¬(e.userId = uid ∧ e.name = strLower it'.1) := by
      intro e he it' hit'
      rcases List.mem_append.mp he with hcase | hcase
      · exact hl e hcase it' (List.mem_cons_of_mem _ hit')
      · rw [List.mem_singleton] at hcase
        subst hcase
        rintro ⟨-, hname⟩
        have hmem : strLower it.1 ∈ rest.map (fun x => strLower x.1) :=
          List.mem_map.mpr ⟨it', hit', hname.symm⟩
        exact (List.nodup_cons.mp hnd).1 hmem
    have hstep := ih (l ++ [⟨uid, strLower it.1, it.2.1, it.2.2.1,
        it.2.2.2.1, it.2.2.2.2⟩]) hfresh (List.nodup_cons.mp hnd).2
    rw [hstep, List.append_assoc]
    rfl

/-- Seeding an account with no catalog rows appends exactly the ten sample
rows. -/
theorem seed_appends (foods : List FoodDef) (uid : ℕ)
    (h : ∀ e ∈ foods, e.userId ≠ uid) :
    seed_example_foods_for_user foods uid = foods ++ seededFoods uid := by
  unfold seed_example_foods_for_user seededFoods
  apply foldl_add_food_append uid sampleFoods foods
  · intro e he it _
    rintro ⟨h1, -⟩
    exact h e he h1
  · decide

/-- Listing a freshly seeded catalog yields the ten sample foods sorted by
name. -/
theorem get_foods_seeded (foods : List FoodDef) (uid : ℕ)
    (hempty : get_foods foods uid = []) :
    get_foods (foods ++ seededFoods uid) uid = sortedSeedCatalog uid := by
  have hfil : foods.filter (fun f => f.userId = uid) = [] := by
    have hperm := List.perm_insertionSort
      (fun a b : FoodDef => nameLe a.name b.name = true)
      (foods.filter (fun f => f.userId = uid))
    unfold get_foods at hempty
    rw [hempty] at hperm
    exact (hperm.symm.eq_nil)
  unfold get_foods
  rw [List.filter_append, hfil, List.nil_append]
  have hfil2 : (seededFoods uid).filter (fun f => f.userId = uid)
      = seededFoods uid := by
    apply List.filter_eq_self.mpr
    intro a ha
    simp only [decide_eq_true_eq]
    obtain ⟨it, -, rfl⟩ := List.mem_map.mp ha
    rfl
  rw [hfil2]
  rfl

/-- A non-empty listed catalog is never reseeded. -/
theorem ensure_seeded_of_nonempty (foods : List FoodDef) (uid : ℕ)
    (h : get_foods foods uid ≠ []) : ensure_seeded foods uid = foods := by
  unfold ensure_seeded
  rw [if_neg (fun hc => h (List.isEmpty_iff.mp hc))]

/-- C8: an account whose listed catalog is empty is seeded with exactly the
fixed ten-item sample set, once — listing afterwards returns those ten
alphabetically by name, and re-running the trigger changes nothing — while
a non-empty catalog is left untouched (the trigger is catalog emptiness
alone). -/
theorem seeding_on_empty_catalog (foods : List FoodDef) (uid : ℕ) :
    (get_foods foods uid = [] →
       ensure_seeded foods uid = foods ++ seededFoods uid
       ∧ get_foods (ensure_seeded foods uid) uid = sortedSeedCatalog uid
       ∧ (sortedSeedCatalog uid).length = 10
       ∧ ensure_seeded (ensure_seeded foods uid) uid
           = ensure_seeded foods uid)
    ∧ (get_foods foods uid ≠ [] → ensure_seeded foods uid = foods) := by
  constructor
  · intro hempty
    have hnouid : ∀ e ∈ foods, e.userId ≠ uid := by
      intro e he heq
      have hmem : e ∈ get_foods foods uid :=
        (mem_get_foods foods uid e).mpr ⟨he, heq⟩
      rw [hempty] at hmem
      exact absurd hmem (List.not_mem_nil e)
    have hseed : ensure_seeded foods uid = foods ++ seededFoods uid := by
      unfold ensure_seeded
      rw [if_pos (List.isEmpty_iff.mpr hempty)]
      exact seed_appends foods uid hnouid
    have hlist : get_foods (ensure_seeded foods uid) uid
        = sortedSeedCatalog uid := by
      rw [hseed]
      exact get_foods_seeded foods uid hempty
    refine ⟨hseed, hlist, rfl, ?_⟩
    apply ensure_seeded_of_nonempty
    rw [hlist]
    exact List.cons_ne_nil _ _
  · intro h
    exact ensure_seeded_of_nonempty foods uid h

/-- Witness for `seeding_on_empty_catalog`: account 1 over the empty foods
table is seeded to the ten-item alphabetical catalog; a catalog that lists a
row is untouched. -/
theorem seeding_on_empty_catalog_witness :
    get_foods [] 1 = []
    ∧ get_foods (ensure_seeded [] 1) 1 = sortedSeedCatalog 1
    ∧ (sortedSeedCatalog 1).length = 10
    ∧ ensure_seeded (ensure_seeded [] 1) 1 = ensure_seeded [] 1
    ∧ (get_foods demoCatalog 1 ≠ [] → ensure_seeded demoCatalog 1
        = demoCatalog) :=
  ⟨rfl,
   ((seeding_on_empty_catalog [] 1).1 rfl).2.1,
   ((seeding_on_empty_catalog [] 1).1 rfl).2.2.1,
   ((seeding_on_empty_catalog [] 1).1 rfl).2.2.2,
   fun h => (seeding_on_empty_catalog demoCatalog 1).2 h⟩
